import Mathlib

set_option maxRecDepth 40000

/-!
Shallow embedding of the contact-scraper program (src/app.py).

Strings are modelled as `List Char`.  The Unicode East-Asian-Width table of
`unicodedata` is external library data, so `east_asian_width` is a parameter
`eaw : Char → EAWClass`; everything the program computes from it is embedded
faithfully, including the `in 'WF'` substring test on the class code string.
The HTTP layer is external as well: the outcome of the single GET request is
an explicit input of type `HttpOutcome`.
-/

/-- Possible return values of `unicodedata.east_asian_width`: the six Unicode
East Asian Width classes, whose Python-level codes are the strings
"F", "H", "W", "Na", "A", "N". -/
inductive EAWClass where
  | F : EAWClass
  | H : EAWClass
  | W : EAWClass
  | Na : EAWClass
  | A : EAWClass
  | N : EAWClass
deriving DecidableEq

/-- The code string `unicodedata.east_asian_width` returns for each class. -/
def eawCode : EAWClass → List Char
  | .F => ['F']
  | .H => ['H']
  | .W => ['W']
  | .Na => ['N', 'a']
  | .A => ['A']
  | .N => ['N']

/-- Embeds the Python `in` operator on strings: `containsSub needle hay` is
true iff `needle` occurs as a contiguous substring of `hay`. -/
def containsSub (needle : List Char) : List Char → Bool
  | [] => needle.isPrefixOf []
  | c :: rest => needle.isPrefixOf (c :: rest) || containsSub needle rest

/-- Embeds `get_display_width` (src/app.py lines 30-34):
`sum(2 if unicodedata.east_asian_width(char) in 'WF' else 1 for char in text)`. -/
def get_display_width (eaw : Char → EAWClass) (text : List Char) : Nat :=
  (text.map fun c => if containsSub (eawCode (eaw c)) ['W', 'F'] then 2 else 1).sum

/-- Embeds `pad_to_width` (src/app.py lines 37-43).  Python `' ' * padding`
yields the empty string for negative `padding`, mirrored by `Int.toNat`. -/
def pad_to_width (eaw : Char → EAWClass) (text : List Char) (width : Int) : List Char :=
  let current_width : Int := (get_display_width eaw text : Int)
  let padding : Int := width - current_width
  text ++ List.replicate padding.toNat ' '

/-- Embeds `re.findall` for the specific patterns of `parse_contacts`
(fuel-indexed to make the recursion structural): every pattern has the shape
literal-prefix `openLit`, then a greedy nonempty run `[^bad]+` captured as
group 1, then literal `closeLit` whose first character is `bad` (so the greedy
run never backtracks).  The scan is the standard leftmost, non-overlapping
one: at each position the whole pattern is tried; on success the capture is
emitted and scanning resumes after the match, otherwise the scan advances one
character. -/
def findallFuel (openLit : List Char) (bad : Char) (closeLit : List Char) :
    Nat → List Char → List (List Char)
  | 0, _ => []
  | _ + 1, [] => []
  | fuel + 1, c :: rest =>
    if openLit.isPrefixOf (c :: rest) then
      let after := (c :: rest).drop openLit.length
      let cap := after.takeWhile (fun x => x ≠ bad)
      let rest2 := after.dropWhile (fun x => x ≠ bad)
      if cap ≠ [] ∧ closeLit.isPrefixOf rest2 then
        cap :: findallFuel openLit bad closeLit fuel (rest2.drop closeLit.length)
      else findallFuel openLit bad closeLit fuel rest
    else findallFuel openLit bad closeLit fuel rest

/-- Each recursive step of `findallFuel` consumes at least one character, so
`s.length + 1` fuel is enough for the recursion never to be cut off. -/
def findall (openLit : List Char) (bad : Char) (closeLit : List Char)
    (s : List Char) : List (List Char) :=
  findallFuel openLit bad closeLit (s.length + 1) s

/-- Literal part of the name pattern
`<td class="views-field views-field-title">([^<]+)</td>` (src/app.py line 59). -/
def nameOpen : List Char := "<td class=\"views-field views-field-title\">".toList

/-- Literal part of the extension pattern
`<td class="views-field views-field-field-ext">([^<]+)</td>` (src/app.py line 60). -/
def extOpen : List Char := "<td class=\"views-field views-field-field-ext\">".toList

/-- Closing literal `</td>` shared by the name and extension patterns. -/
def tdClose : List Char := "</td>".toList

/-- Literal part of the email pattern `<a href="mailto:([^"]+)">`
(src/app.py line 61). -/
def mailOpen : List Char := "<a href=\"mailto:".toList

/-- Closing literal `">` of the email pattern. -/
def mailClose : List Char := "\">".toList

/-- Embeds `parse_contacts` (src/app.py lines 55-69): three independent
`findall` passes over the full body, combined positionally by `zip`. -/
def parse_contacts (html_content : List Char) :
    List (List Char × List Char × List Char) :=
  let names := findall nameOpen '<' tdClose html_content
  let exts := findall extOpen '<' tdClose html_content
  let emails := findall mailOpen '"' mailClose html_content
  names.zip (exts.zip emails)

/-- A row of the `contacts` table (src/app.py lines 19-26): autoincrement id,
name, ext, and email with a UNIQUE constraint. -/
structure Row where
  id : Nat
  name : List Char
  ext : List Char
  email : List Char
deriving DecidableEq

/-- The persistent contact store: the `contacts` table plus the autoincrement
counter. -/
structure Store where
  rows : List Row
  nextId : Nat
deriving DecidableEq

/-- Whether some row already holds the email `m` (the UNIQUE constraint
check). -/
def hasEmail (rows : List Row) (m : List Char) : Bool :=
  rows.any fun r => r.email = m

/-- One `INSERT OR IGNORE INTO contacts (name, ext, email) VALUES (?, ?, ?)`
(src/app.py lines 77-80): a duplicate email makes the statement a no-op,
otherwise the row is appended with the next autoincrement id. -/
def insertOrIgnore (st : Store) (r : List Char × List Char × List Char) : Store :=
  if hasEmail st.rows r.2.2 then st
  else ⟨st.rows ++ [⟨st.nextId, r.1, r.2.1, r.2.2⟩], st.nextId + 1⟩

/-- Embeds `save_to_database` (src/app.py lines 72-81): one insert-or-ignore
per result tuple, in order. -/
def save_to_database (st : Store) (results : List (List Char × List Char × List Char)) :
    Store :=
  results.foldl insertOrIgnore st

/-- The error raised inside `scrape_contacts`: a connection/timeout failure
from `requests.get`, or the `HTTPError` from `response.raise_for_status()`. -/
inductive FetchError where
  | netError : FetchError
  | httpError : Nat → FetchError
deriving DecidableEq

/-- Outcome of the single `requests.get(url, timeout=10)` call, an external
input: either no response at all, or a response with a status code and body. -/
inductive HttpOutcome where
  | netFailure : HttpOutcome
  | response : Nat → List Char → HttpOutcome
deriving DecidableEq

/-- Embeds `scrape_contacts` (src/app.py lines 46-52): `raise_for_status`
raises exactly for client-error (4xx) and server-error (5xx) status codes;
otherwise the body text is returned. -/
def scrape_contacts : HttpOutcome → Except FetchError (List Char)
  | .netFailure => .error .netError
  | .response status body =>
    if 400 ≤ status ∧ status < 600 then .error (.httpError status) else .ok body

/-- Column headers of `display_contacts` (src/app.py line 90). -/
def headersL : List (List Char) := ["姓名".toList, "分機".toList, "Email".toList]

/-- Column widths of `display_contacts` (src/app.py line 91). -/
def widthsL : List Int := [20, 15, 30]

/-- Embeds `display_contacts` (src/app.py lines 84-98) as the full text the
widget holds afterwards: the old content is deleted, then the padded header
line, a dash rule spanning the summed widths, and one padded row per result
are inserted, each followed by a newline. -/
def display_contacts (eaw : Char → EAWClass)
    (results : List (List Char × List Char × List Char)) : List Char :=
  let header_line := ((headersL.zip widthsL).map fun p => pad_to_width eaw p.1 p.2).flatten
  let rule := List.replicate widthsL.sum.toNat '-'
  let rows := (results.map fun r =>
    (([r.1, r.2.1, r.2.2].zip widthsL).map fun p => pad_to_width eaw p.1 p.2).flatten ++
      ['\n']).flatten
  header_line ++ '\n' :: (rule ++ '\n' :: rows)

/-- Observable UI-plus-persistence state of the program: the text shown in the
scrolled output widget and the contact store. -/
structure AppState where
  display : List Char
  store : Store
deriving DecidableEq

/-- The modal dialogs `fetch_data` can pop up: the empty-URL warning
(line 107), the malformed-URL error (line 111), and the fetch-failure error
(line 120). -/
inductive Dialog where
  | warnEmpty : Dialog
  | errFormat : Dialog
  | errFetch : Dialog
deriving DecidableEq

/-- The substring `'http'` checked by the URL heuristic (src/app.py line 110). -/
def httpTok : List Char := "http".toList

/-- The substring `'://'` checked by the URL heuristic (src/app.py line 110). -/
def sepTok : List Char := "://".toList

/-- Embeds `fetch_data` (src/app.py lines 101-120) as a function from the URL,
the outcome of the (potential) GET request, and the prior state to the new
state plus the dialog shown, if any.  An empty URL or one failing the
substring heuristic aborts before the network stage; a fetch error aborts
after it; otherwise the parsed results are displayed and persisted. -/
def fetch_data (eaw : Char → EAWClass) (url : List Char) (outcome : HttpOutcome)
    (st : AppState) : AppState × Option Dialog :=
  if url = [] then (st, some .warnEmpty)
  else if !containsSub httpTok url || !containsSub sepTok url then (st, some .errFormat)
  else
    match scrape_contacts outcome with
    | .error _ => (st, some .errFetch)
    | .ok html_content =>
      let results := parse_contacts html_content
      (⟨display_contacts eaw results, save_to_database st.store results⟩, none)

/-- Whether a dialog is one of the two pre-network validation dialogs. -/
def validationDialog : Option Dialog → Bool
  | some .warnEmpty => true
  | some .errFormat => true
  | _ => false

/-- Spec-side definition (not in the code): a word character in the sense of
the conservative email shape of the spec, section 4.2. -/
def isWordChar (c : Char) : Bool := c.isAlphanum || c = '_'

/-- Spec-side definition: a character allowed in the local part of the
conservative email shape (word characters, dot, percent, plus, hyphen). -/
def isLocalChar (c : Char) : Bool :=
  isWordChar c || c = '.' || c = '%' || c = '+' || c = '-'

/-- Spec-side definition: a character allowed in a domain label
(alphanumeric or hyphen). -/
def isDomainChar (c : Char) : Bool := c.isAlphanum || c = '-'

/-- Spec-side definition, following the spec's words in section 4.2: a
conservative `local@domain.tld` email shape — a nonempty local part of
word/dot/percent/plus/hyphen characters, an `@`, and at least two
alphanumeric/hyphen domain labels separated by dots, the final label being
two or more letters. -/
def specEmailShape (s : List Char) : Bool :=
  match s.splitOn '@' with
  | [lp, domain] =>
    lp ≠ [] && lp.all isLocalChar &&
      (let labels := domain.splitOn '.'
       decide (2 ≤ labels.length) &&
         labels.all (fun l => l ≠ [] && l.all isDomainChar) &&
         (labels.getLast?.elim false fun last =>
           decide (2 ≤ last.length) && last.all Char.isAlpha))
  | _ => false

/-- Spec-side definition: trimming of leading and trailing whitespace, as in
Python's `str.strip()`. -/
def specTrim (s : List Char) : List Char :=
  ((s.dropWhile Char.isWhitespace).reverse.dropWhile Char.isWhitespace).reverse

/-! ### Helper lemmas -/

/-- Every capture emitted by `findallFuel` is nonempty and avoids the
excluded character (it is a `[^bad]+` match). -/
theorem findallFuel_mem {openLit : List Char} {bad : Char} {closeLit : List Char} :
    ∀ (n : Nat) (s cap : List Char), cap ∈ findallFuel openLit bad closeLit n s →
      cap ≠ [] ∧ ∀ x ∈ cap, x ≠ bad := by
  intro n
  induction n with
  | zero => intro s cap h; simp [findallFuel] at h
  | succ n ih =>
    intro s cap h
    cases s with
    | nil => simp [findallFuel] at h
    | cons c rest =>
      simp only [findallFuel] at h
      split at h
      · split at h
        · rcases List.mem_cons.mp h with rfl | h2
          · rename_i hcond
            refine ⟨hcond.1, fun x hx => ?_⟩
            have := List.mem_takeWhile_imp hx
            simpa using this
          · exact ih _ _ h2
        · exact ih _ _ h
      · exact ih _ _ h

/-- Every capture emitted by `findallFuel` really occurs in the scanned string
between the two pattern literals. -/
theorem findallFuel_sound {openLit : List Char} {bad : Char} {closeLit : List Char} :
    ∀ (n : Nat) (s cap : List Char), cap ∈ findallFuel openLit bad closeLit n s →
      ∃ p q, s = p ++ openLit ++ cap ++ closeLit ++ q := by
  intro n
  induction n with
  | zero => intro s cap h; simp [findallFuel] at h
  | succ n ih =>
    intro s cap h
    cases s with
    | nil => simp [findallFuel] at h
    | cons c rest =>
      simp only [findallFuel] at h
      split at h
      · rename_i hpre
        have hA : openLit ++ (c :: rest).drop openLit.length = c :: rest :=
          List.prefix_iff_eq_append.mp (List.isPrefixOf_iff_prefix.mp hpre)
        split at h
        · rename_i hcond
          obtain ⟨q0, hq0⟩ := List.isPrefixOf_iff_prefix.mp hcond.2
          rcases List.mem_cons.mp h with rfl | h2
          · refine ⟨[], q0, ?_⟩
            conv_lhs => rw [← hA]
            conv_lhs =>
              rw [← List.takeWhile_append_dropWhile (fun x => decide (x ≠ bad))
                ((c :: rest).drop openLit.length)]
            rw [← hq0]
            simp only [List.append_assoc, List.nil_append]
          · obtain ⟨p1, q1, hpq⟩ := ih _ _ h2
            rw [← hq0, List.drop_left] at hpq
            refine ⟨openLit ++ ((c :: rest).drop openLit.length).takeWhile
              (fun x => decide (x ≠ bad)) ++ closeLit ++ p1, q1, ?_⟩
            conv_lhs => rw [← hA]
            conv_lhs =>
              rw [← List.takeWhile_append_dropWhile (fun x => decide (x ≠ bad))
                ((c :: rest).drop openLit.length)]
            rw [← hq0, hpq]
            simp only [List.append_assoc]
        · obtain ⟨p1, q1, hpq⟩ := ih _ _ h
          exact ⟨c :: p1, q1, by simp [hpq]⟩
      · obtain ⟨p1, q1, hpq⟩ := ih _ _ h
        exact ⟨c :: p1, q1, by simp [hpq]⟩

/-- The first components of a zip are an initial segment of the first list. -/
theorem zip_map_fst {α β : Type} (l1 : List α) (l2 : List β) :
    (l1.zip l2).map Prod.fst = l1.take (l1.zip l2).length := by
  induction l1 generalizing l2 with
  | nil => simp
  | cons a l ih =>
    cases l2 with
    | nil => simp
    | cons b m => simpa using ih m

/-- The second components of a zip are an initial segment of the second list. -/
theorem zip_map_snd {α β : Type} (l1 : List α) (l2 : List β) :
    (l1.zip l2).map Prod.snd = l2.take (l1.zip l2).length := by
  induction l1 generalizing l2 with
  | nil => simp
  | cons a l ih =>
    cases l2 with
    | nil => simp
    | cons b m => simpa using ih m

/-- Inserting a row never removes an email from the store. -/
theorem hasEmail_insertOrIgnore {st : Store} {m : List Char}
    (r : List Char × List Char × List Char) (h : hasEmail st.rows m = true) :
    hasEmail (insertOrIgnore st r).rows m = true := by
  unfold insertOrIgnore
  split
  · exact h
  · simp only [hasEmail, List.any_append] at h ⊢
    rw [h]
    simp

/-- After inserting a record, its own email is present in the store. -/
theorem hasEmail_insertOrIgnore_self (st : Store)
    (r : List Char × List Char × List Char) :
    hasEmail (insertOrIgnore st r).rows r.2.2 = true := by
  unfold insertOrIgnore
  split
  · assumption
  · simp [hasEmail, List.any_append]

/-- A whole save pass never removes an email from the store. -/
theorem hasEmail_save_mono {st : Store} {m : List Char}
    (results : List (List Char × List Char × List Char))
    (h : hasEmail st.rows m = true) :
    hasEmail (save_to_database st results).rows m = true := by
  induction results generalizing st with
  | nil => exact h
  | cons r tl ih => exact ih (hasEmail_insertOrIgnore r h)

/-- After a save pass, the email of every saved record is in the store. -/
theorem hasEmail_save_of_mem {st : Store}
    {results : List (List Char × List Char × List Char)}
    {r : List Char × List Char × List Char} (h : r ∈ results) :
    hasEmail (save_to_database st results).rows r.2.2 = true := by
  induction results generalizing st with
  | nil => simp at h
  | cons a tl ih =>
    rcases List.mem_cons.mp h with rfl | h2
    · exact hasEmail_save_mono tl (hasEmail_insertOrIgnore_self st r)
    · exact ih h2

/-- Saving records whose emails are all already present changes nothing. -/
theorem save_eq_of_all_present {st : Store}
    {results : List (List Char × List Char × List Char)}
    (h : ∀ r ∈ results, hasEmail st.rows r.2.2 = true) :
    save_to_database st results = st := by
  induction results with
  | nil => rfl
  | cons a tl ih =>
    have ha : insertOrIgnore st a = st := by
      unfold insertOrIgnore
      rw [if_pos (h a (List.mem_cons_self a tl))]
    show save_to_database (insertOrIgnore st a) tl = st
    rw [ha]
    exact ih fun r hr => h r (List.mem_cons_of_mem a hr)

/-- An insert whose email is already present is a no-op. -/
theorem insertOrIgnore_of_present {st : Store} {r : List Char × List Char × List Char}
    (h : hasEmail st.rows r.2.2 = true) : insertOrIgnore st r = st := by
  unfold insertOrIgnore
  rw [if_pos h]

/-- An insert whose email is absent appends the new row. -/
theorem insertOrIgnore_of_absent {st : Store} {r : List Char × List Char × List Char}
    (h : hasEmail st.rows r.2.2 = false) :
    insertOrIgnore st r = ⟨st.rows ++ [⟨st.nextId, r.1, r.2.1, r.2.2⟩], st.nextId + 1⟩ := by
  unfold insertOrIgnore
  rw [if_neg (by simp [h])]

/-! ### Concrete sample inputs used by witnesses and counterexamples -/

/-- HTML body with two well-formed name/ext/mailto triples in document order. -/
def sampleHtml : List Char :=
  ("<td class=\"views-field views-field-title\">Alice</td>" ++
   "<td class=\"views-field views-field-field-ext\">123</td>" ++
   "<a href=\"mailto:a@b.cc\">x</a>" ++
   "<td class=\"views-field views-field-title\">Bob</td>" ++
   "<td class=\"views-field views-field-field-ext\">456</td>" ++
   "<a href=\"mailto:c@d.ee\">y</a>").toList

/-- HTML body whose mailto target is not shaped like an email address. -/
def cexEmailHtml : List Char :=
  ("<td class=\"views-field views-field-title\">John</td>" ++
   "<td class=\"views-field views-field-field-ext\">77</td>" ++
   "<a href=\"mailto:not an email\">x</a>").toList

/-- HTML body whose name and extension cells carry surrounding whitespace. -/
def cexTrimHtml : List Char :=
  ("<td class=\"views-field views-field-title\"> A </td>" ++
   "<td class=\"views-field views-field-field-ext\"> 7 </td>" ++
   "<a href=\"mailto:a@b.cc\">x</a>").toList

/-- Sample East-Asian-Width classifier mapping everything to Narrow. -/
def eawNarrow : Char → EAWClass := fun _ => EAWClass.Na

/-- Sample East-Asian-Width classifier with one Wide character. -/
def eawSample : Char → EAWClass := fun c => if c = '漢' then EAWClass.W else EAWClass.Na

/-- Sample empty pre-call application state. -/
def st0 : AppState := ⟨[], ⟨[], 1⟩⟩

/-! ### Claims -/

/-- C6: for every list of records and every starting store state, running
`save_to_database` twice with the identical input list yields the same final
store contents as running it once. -/
theorem save_to_database_idempotent (st : Store)
    (results : List (List Char × List Char × List Char)) :
    save_to_database (save_to_database st results) results =
      save_to_database st results :=
  save_eq_of_all_present fun _ hr => hasEmail_save_of_mem hr

/-- C7: a record whose email is already stored is silently skipped (the
existing row keeps its name and extension), a record with an absent email is
inserted, and persisting the same email twice keeps the first-inserted
values. -/
theorem save_to_database_duplicate_ignored (st : Store)
    (n e m n2 e2 : List Char) :
    (hasEmail st.rows m = true → save_to_database st [(n, e, m)] = st) ∧
    (hasEmail st.rows m = false →
      save_to_database st [(n, e, m)] =
        ⟨st.rows ++ [⟨st.nextId, n, e, m⟩], st.nextId + 1⟩) ∧
    save_to_database st [(n, e, m), (n2, e2, m)] = save_to_database st [(n, e, m)] := by
  refine ⟨?_, ?_, ?_⟩
  · intro h
    refine save_eq_of_all_present ?_
    intro r hr
    rcases List.mem_singleton.mp hr with rfl
    exact h
  · intro h
    show save_to_database (insertOrIgnore st (n, e, m)) [] = _
    rw [insertOrIgnore_of_absent h]
    rfl
  · show save_to_database (insertOrIgnore st (n, e, m)) [(n2, e2, m)] =
      save_to_database st [(n, e, m)]
    have hm : hasEmail (insertOrIgnore st (n, e, m)).rows m = true :=
      hasEmail_insertOrIgnore_self st (n, e, m)
    show insertOrIgnore (insertOrIgnore st (n, e, m)) (n2, e2, m) = _
    rw [insertOrIgnore_of_present hm]
    rfl

/-- Witness for C7 at concrete inputs: inserting into an empty store appends
the row; re-inserting the same email with different fields changes nothing. -/
theorem save_to_database_duplicate_ignored_witness :
    (save_to_database ⟨[], 1⟩ [("Ann".toList, "11".toList, "a@b.cc".toList)] =
      ⟨[⟨1, "Ann".toList, "11".toList, "a@b.cc".toList⟩], 2⟩) ∧
    (save_to_database ⟨[⟨1, "Ann".toList, "11".toList, "a@b.cc".toList⟩], 2⟩
        [("Bob".toList, "22".toList, "a@b.cc".toList)] =
      ⟨[⟨1, "Ann".toList, "11".toList, "a@b.cc".toList⟩], 2⟩) := by
  constructor
  · exact (save_to_database_duplicate_ignored ⟨[], 1⟩
      ("Ann".toList) ("11".toList) ("a@b.cc".toList) [] []).2.1 (by decide)
  · exact (save_to_database_duplicate_ignored
      ⟨[⟨1, "Ann".toList, "11".toList, "a@b.cc".toList⟩], 2⟩
      ("Bob".toList) ("22".toList) ("a@b.cc".toList) [] []).1 (by decide)

/-- The code's `in 'WF'` substring test on the class code holds exactly for
the Wide and Fullwidth classes. -/
theorem containsSub_eawCode_iff (cls : EAWClass) :
    containsSub (eawCode cls) ['W', 'F'] = true ↔
      (cls = EAWClass.W ∨ cls = EAWClass.F) := by
  cases cls <;> decide

/-- Unfolding `get_display_width` one character at a time. -/
theorem get_display_width_cons (eaw : Char → EAWClass) (c : Char) (s : List Char) :
    get_display_width eaw (c :: s) =
      (if containsSub (eawCode (eaw c)) ['W', 'F'] then 2 else 1) +
        get_display_width eaw s := by
  simp [get_display_width]

/-- The display width is at least the character count. -/
theorem get_display_width_le (eaw : Char → EAWClass) :
    ∀ s : List Char, s.length ≤ get_display_width eaw s := by
  intro s
  induction s with
  | nil => simp [get_display_width]
  | cons c tl ih =>
    rw [get_display_width_cons]
    split <;> simp <;> omega

/-- The display width equals the character count exactly when no character is
Wide or Fullwidth. -/
theorem get_display_width_eq_length_iff (eaw : Char → EAWClass) :
    ∀ s : List Char, get_display_width eaw s = s.length ↔
      ∀ c ∈ s, eaw c ≠ EAWClass.W ∧ eaw c ≠ EAWClass.F := by
  intro s
  induction s with
  | nil => simp [get_display_width]
  | cons c tl ih =>
    rw [get_display_width_cons]
    by_cases hc : containsSub (eawCode (eaw c)) ['W', 'F'] = true
    · rw [if_pos hc]
      have h1 := get_display_width_le eaw tl
      have h2 := (containsSub_eawCode_iff _).mp hc
      simp only [List.mem_cons, List.length_cons]
      constructor
      · intro h; omega
      · intro h
        rcases h2 with hw | hf
        · exact absurd hw (h c (Or.inl rfl)).1
        · exact absurd hf (h c (Or.inl rfl)).2
    · rw [if_neg hc]
      have h2 : ¬(eaw c = EAWClass.W ∨ eaw c = EAWClass.F) :=
        fun hh => hc ((containsSub_eawCode_iff _).mpr hh)
      simp only [List.mem_cons, List.length_cons]
      constructor
      · intro h x hx
        rcases hx with rfl | hx
        · exact ⟨fun hw => h2 (Or.inl hw), fun hf => h2 (Or.inr hf)⟩
        · exact (ih.mp (by omega)) x hx
      · intro h
        have := ih.mpr fun x hx => h x (Or.inr hx)
        omega

/-- The display width is the sum of per-character widths, 2 for Wide or
Fullwidth and 1 otherwise. -/
theorem get_display_width_sum (eaw : Char → EAWClass) :
    ∀ s : List Char, get_display_width eaw s =
      (s.map fun c => if eaw c = EAWClass.W ∨ eaw c = EAWClass.F then 2 else 1).sum := by
  intro s
  induction s with
  | nil => rfl
  | cons c tl ih =>
    rw [get_display_width_cons, ih, List.map_cons, List.sum_cons]
    congr 1
    by_cases hc : eaw c = EAWClass.W ∨ eaw c = EAWClass.F
    · rw [if_pos ((containsSub_eawCode_iff _).mpr hc), if_pos hc]
    · rw [if_neg (fun h => hc ((containsSub_eawCode_iff _).mp h)), if_neg hc]

/-- Display width distributes over concatenation. -/
theorem get_display_width_append (eaw : Char → EAWClass) (a b : List Char) :
    get_display_width eaw (a ++ b) =
      get_display_width eaw a + get_display_width eaw b := by
  simp [get_display_width]

/-- A run of ASCII spaces has display width equal to its length whenever the
classifier marks the space character Narrow, as Unicode does. -/
theorem get_display_width_spaces (eaw : Char → EAWClass) (hsp : eaw ' ' = EAWClass.Na) :
    ∀ k : Nat, get_display_width eaw (List.replicate k ' ') = k := by
  intro k
  induction k with
  | zero => rfl
  | succ k ih =>
    rw [List.replicate_succ, get_display_width_cons, hsp, ih]
    rw [if_neg (by decide : ¬ containsSub (eawCode EAWClass.Na) ['W', 'F'] = true)]
    omega

/-- C8: `pad_to_width` appends `width - displayWidth` spaces, appending none
(with no truncation or error) when the text is already at least that wide;
the result's length is `max(length(s), length(s) + (w - displayWidth(s)))`
and its display width is `max(w, displayWidth(s))`. -/
theorem pad_to_width_spec (eaw : Char → EAWClass) (s : List Char) (w : Int) :
    (w ≤ (get_display_width eaw s : Int) → pad_to_width eaw s w = s) ∧
    ((pad_to_width eaw s w).length : Int) =
      max (s.length : Int) ((s.length : Int) + (w - (get_display_width eaw s : Int))) ∧
    (eaw ' ' = EAWClass.Na →
      (get_display_width eaw (pad_to_width eaw s w) : Int) =
        max w (get_display_width eaw s : Int)) := by
  refine ⟨?_, ?_, ?_⟩
  · intro h
    show s ++ List.replicate (w - (get_display_width eaw s : Int)).toNat ' ' = s
    have h0 : (w - (get_display_width eaw s : Int)).toNat = 0 := by omega
    rw [h0]
    simp
  · show ((s ++ List.replicate (w - (get_display_width eaw s : Int)).toNat ' ').length : Int) = _
    rw [List.length_append, List.length_replicate]
    push_cast
    omega
  · intro hsp
    show (get_display_width eaw
        (s ++ List.replicate (w - (get_display_width eaw s : Int)).toNat ' ') : Int) = _
    rw [get_display_width_append, get_display_width_spaces eaw hsp]
    push_cast
    omega

/-- Witness for C8 at concrete inputs: width 3 text is unchanged by target 2,
and padding to 5 gives the stated length and display width. -/
theorem pad_to_width_spec_witness :
    pad_to_width eawNarrow ("abc".toList) 2 = "abc".toList ∧
    ((pad_to_width eawNarrow ("abc".toList) 5).length : Int) =
      max (("abc".toList).length : Int)
        ((("abc".toList).length : Int) +
          (5 - (get_display_width eawNarrow ("abc".toList) : Int))) ∧
    (get_display_width eawNarrow (pad_to_width eawNarrow ("abc".toList) 5) : Int) =
      max 5 (get_display_width eawNarrow ("abc".toList) : Int) := by
  refine ⟨?_, ?_, ?_⟩
  · exact (pad_to_width_spec eawNarrow ("abc".toList) 2).1 (by decide)
  · exact (pad_to_width_spec eawNarrow ("abc".toList) 5).2.1
  · exact (pad_to_width_spec eawNarrow ("abc".toList) 5).2.2 rfl

/-- C9: `get_display_width` sums 2 per Wide/Fullwidth character and 1 per
other character; hence it is at least the length, with equality exactly when
no character is Wide/Fullwidth, and the empty string has width 0. -/
theorem get_display_width_spec (eaw : Char → EAWClass) (s : List Char) :
    get_display_width eaw s =
      (s.map fun c => if eaw c = EAWClass.W ∨ eaw c = EAWClass.F then 2 else 1).sum ∧
    s.length ≤ get_display_width eaw s ∧
    (get_display_width eaw s = s.length ↔
      ∀ c ∈ s, eaw c ≠ EAWClass.W ∧ eaw c ≠ EAWClass.F) ∧
    get_display_width eaw ([] : List Char) = 0 :=
  ⟨get_display_width_sum eaw s, get_display_width_le eaw s,
   get_display_width_eq_length_iff eaw s, rfl⟩

/-- Witness for C9 at concrete inputs: an all-narrow string has width equal
to its length, and a string with one Wide character does not. -/
theorem get_display_width_spec_witness :
    ("ab".toList).length ≤ get_display_width eawSample ("ab".toList) ∧
    get_display_width eawSample ("ab".toList) = ("ab".toList).length ∧
    ¬ get_display_width eawSample ("a漢".toList) = ("a漢".toList).length := by
  refine ⟨(get_display_width_spec eawSample ("ab".toList)).2.1, ?_, ?_⟩
  · exact (get_display_width_spec eawSample ("ab".toList)).2.2.1.mpr (by decide)
  · intro hh
    exact (by decide : ¬ ∀ c ∈ ("a漢".toList),
        eawSample c ≠ EAWClass.W ∧ eawSample c ≠ EAWClass.F)
      ((get_display_width_spec eawSample ("a漢".toList)).2.2.1.mp hh)

/-- Projections of a triple zip: each field list is an initial segment of the
corresponding input list, cut at the zip's length. -/
theorem zip3_proj {α β γ : Type} (l1 : List α) (l2 : List β) (l3 : List γ) :
    (l1.zip (l2.zip l3)).length = min l1.length (min l2.length l3.length) ∧
    (l1.zip (l2.zip l3)).map (fun r => r.1) =
      l1.take (l1.zip (l2.zip l3)).length ∧
    (l1.zip (l2.zip l3)).map (fun r => r.2.1) =
      l2.take (l1.zip (l2.zip l3)).length ∧
    (l1.zip (l2.zip l3)).map (fun r => r.2.2) =
      l3.take (l1.zip (l2.zip l3)).length := by
  refine ⟨?_, ?_, ?_, ?_⟩
  · simp only [List.length_zip]
  · exact zip_map_fst l1 (l2.zip l3)
  · show (l1.zip (l2.zip l3)).map (Prod.fst ∘ Prod.snd) =
      l2.take (l1.zip (l2.zip l3)).length
    rw [← List.map_map, zip_map_snd, List.map_take, zip_map_fst, List.take_take]
    congr 1
    simp only [List.length_zip]
    omega
  · show (l1.zip (l2.zip l3)).map (Prod.snd ∘ Prod.snd) =
      l3.take (l1.zip (l2.zip l3)).length
    rw [← List.map_map, zip_map_snd, List.map_take, zip_map_snd, List.take_take]
    congr 1
    simp only [List.length_zip]
    omega

/-- C1: `parse_contacts` positionally pairs the three matched sequences in
document order, truncating to the shortest; with equally many matches of each
kind it yields exactly that many records, whose fields are the matched
sequences themselves. -/
theorem parse_contacts_positional (html : List Char) :
    (parse_contacts html).length =
      min (findall nameOpen '<' tdClose html).length
        (min (findall extOpen '<' tdClose html).length
          (findall mailOpen '"' mailClose html).length) ∧
    (parse_contacts html).map (fun r => r.1) =
      (findall nameOpen '<' tdClose html).take (parse_contacts html).length ∧
    (parse_contacts html).map (fun r => r.2.1) =
      (findall extOpen '<' tdClose html).take (parse_contacts html).length ∧
    (parse_contacts html).map (fun r => r.2.2) =
      (findall mailOpen '"' mailClose html).take (parse_contacts html).length ∧
    ∀ nn : Nat, (findall nameOpen '<' tdClose html).length = nn →
      (findall extOpen '<' tdClose html).length = nn →
      (findall mailOpen '"' mailClose html).length = nn →
      (parse_contacts html).length = nn ∧
      (parse_contacts html).map (fun r => r.1) = findall nameOpen '<' tdClose html ∧
      (parse_contacts html).map (fun r => r.2.1) = findall extOpen '<' tdClose html ∧
      (parse_contacts html).map (fun r => r.2.2) = findall mailOpen '"' mailClose html := by
  simp only [parse_contacts]
  obtain ⟨hl, h1, h2, h3⟩ := zip3_proj (findall nameOpen '<' tdClose html)
    (findall extOpen '<' tdClose html) (findall mailOpen '"' mailClose html)
  refine ⟨hl, h1, h2, h3, ?_⟩
  intro nn e1 e2 e3
  have hk : ((findall nameOpen '<' tdClose html).zip
      ((findall extOpen '<' tdClose html).zip
        (findall mailOpen '"' mailClose html))).length = nn := by
    rw [hl, e1, e2, e3]
    omega
  refine ⟨hk, ?_, ?_, ?_⟩
  · rw [h1, hk, ← e1, List.take_length]
  · rw [h2, hk, ← e2, List.take_length]
  · rw [h3, hk, ← e3, List.take_length]

/-- Witness for C1: on a document with two complete triples, extraction
yields exactly two records whose fields are the matched sequences. -/
theorem parse_contacts_positional_witness :
    (parse_contacts sampleHtml).length = 2 ∧
    (parse_contacts sampleHtml).map (fun r => r.1) =
      findall nameOpen '<' tdClose sampleHtml ∧
    (parse_contacts sampleHtml).map (fun r => r.2.1) =
      findall extOpen '<' tdClose sampleHtml ∧
    (parse_contacts sampleHtml).map (fun r => r.2.2) =
      findall mailOpen '"' mailClose sampleHtml :=
  (parse_contacts_positional sampleHtml).2.2.2.2 2 (by decide) (by decide) (by decide)

/-- C10: every record extracted by `parse_contacts` has three nonempty
fields; name and extension contain no left angle bracket and the email
contains no double quote, by the shape of the capture groups. -/
theorem parse_contacts_field_chars (html : List Char)
    (r : List Char × List Char × List Char) (h : r ∈ parse_contacts html) :
    r.1 ≠ [] ∧ r.2.1 ≠ [] ∧ r.2.2 ≠ [] ∧
    (∀ x ∈ r.1, x ≠ '<') ∧ (∀ x ∈ r.2.1, x ≠ '<') ∧ (∀ x ∈ r.2.2, x ≠ '"') := by
  obtain ⟨a, b, c⟩ := r
  have h0 : (a, (b, c)) ∈ (findall nameOpen '<' tdClose html).zip
      ((findall extOpen '<' tdClose html).zip
        (findall mailOpen '"' mailClose html)) := h
  have ha := (List.of_mem_zip h0).1
  have hbc := (List.of_mem_zip h0).2
  have hb := (List.of_mem_zip hbc).1
  have hc := (List.of_mem_zip hbc).2
  have pa := findallFuel_mem (html.length + 1) html a ha
  have pb := findallFuel_mem (html.length + 1) html b hb
  have pc := findallFuel_mem (html.length + 1) html c hc
  exact ⟨pa.1, pb.1, pc.1, pa.2, pb.2, pc.2⟩

/-- Witness for C10 at a concrete document and record. -/
theorem parse_contacts_field_chars_witness :
    "Alice".toList ≠ ([] : List Char) ∧ "123".toList ≠ ([] : List Char) ∧
    "a@b.cc".toList ≠ ([] : List Char) ∧
    (∀ x ∈ "Alice".toList, x ≠ '<') ∧ (∀ x ∈ "123".toList, x ≠ '<') ∧
    (∀ x ∈ "a@b.cc".toList, x ≠ '"') :=
  parse_contacts_field_chars sampleHtml
    ("Alice".toList, "123".toList, "a@b.cc".toList) (by decide)

/-- C2 as stated is false on the code: the email matcher accepts any nonempty
run of non-quote characters after `mailto:`, with no email-shape validation,
so a record's email can fail the conservative shape. -/
theorem parse_contacts_email_shape_cex :
    ¬ ∀ (html : List Char), ∀ r ∈ parse_contacts html,
        specEmailShape r.2.2 = true := by
  intro h
  have hx := h cexEmailHtml
    ("John".toList, "77".toList, "not an email".toList) (by decide)
  exact absurd hx (by decide)

/-- C2 amended: every email field of an extracted record is the capture of a
`mailto:` link target — it occurs in the document between the literals
`<a href="mailto:` and `">`, is nonempty and contains no double quote — but
it is not validated against the conservative email shape. -/
theorem parse_contacts_email_mailto (html : List Char)
    (r : List Char × List Char × List Char) (h : r ∈ parse_contacts html) :
    (∃ p q, html = p ++ mailOpen ++ r.2.2 ++ mailClose ++ q) ∧
    r.2.2 ≠ [] ∧ (∀ x ∈ r.2.2, x ≠ '"') := by
  obtain ⟨a, b, c⟩ := r
  have h0 : (a, (b, c)) ∈ (findall nameOpen '<' tdClose html).zip
      ((findall extOpen '<' tdClose html).zip
        (findall mailOpen '"' mailClose html)) := h
  have hc := (List.of_mem_zip (List.of_mem_zip h0).2).2
  have ps := findallFuel_sound (html.length + 1) html c hc
  have pm := findallFuel_mem (html.length + 1) html c hc
  exact ⟨ps, pm.1, pm.2⟩

/-- Witness for the amended C2 at a concrete document and record. -/
theorem parse_contacts_email_mailto_witness :
    (∃ p q, sampleHtml = p ++ mailOpen ++ "a@b.cc".toList ++ mailClose ++ q) ∧
    "a@b.cc".toList ≠ ([] : List Char) ∧ (∀ x ∈ "a@b.cc".toList, x ≠ '"') :=
  parse_contacts_email_mailto sampleHtml
    ("Alice".toList, "123".toList, "a@b.cc".toList) (by decide)

/-- C3 as stated is false on the code: `parse_contacts` performs no trimming,
so a record's name field can keep its leading and trailing whitespace. -/
theorem parse_contacts_trim_cex :
    ¬ ∀ (html : List Char), ∀ r ∈ parse_contacts html,
        specTrim r.1 = r.1 ∧ specTrim r.2.1 = r.2.1 := by
  intro h
  have hx := h cexTrimHtml
    (" A ".toList, " 7 ".toList, "a@b.cc".toList) (by decide)
  exact absurd hx.1 (by decide)

/-- C3 amended: the name and extension fields of an extracted record are the
exact captured substrings of the document between the cell markup literals,
taken verbatim with no trimming (whitespace is preserved). -/
theorem parse_contacts_fields_verbatim (html : List Char)
    (r : List Char × List Char × List Char) (h : r ∈ parse_contacts html) :
    (∃ p q, html = p ++ nameOpen ++ r.1 ++ tdClose ++ q) ∧
    (∃ p q, html = p ++ extOpen ++ r.2.1 ++ tdClose ++ q) := by
  obtain ⟨a, b, c⟩ := r
  have h0 : (a, (b, c)) ∈ (findall nameOpen '<' tdClose html).zip
      ((findall extOpen '<' tdClose html).zip
        (findall mailOpen '"' mailClose html)) := h
  have ha := (List.of_mem_zip h0).1
  have hb := (List.of_mem_zip (List.of_mem_zip h0).2).1
  exact ⟨findallFuel_sound (html.length + 1) html a ha,
    findallFuel_sound (html.length + 1) html b hb⟩

/-- Witness for the amended C3: at a concrete document the captured name and
extension substrings keep their surrounding whitespace. -/
theorem parse_contacts_fields_verbatim_witness :
    (∃ p q, cexTrimHtml = p ++ nameOpen ++ " A ".toList ++ tdClose ++ q) ∧
    (∃ p q, cexTrimHtml = p ++ extOpen ++ " 7 ".toList ++ tdClose ++ q) :=
  parse_contacts_fields_verbatim cexTrimHtml
    (" A ".toList, " 7 ".toList, "a@b.cc".toList) (by decide)

/-- C4: when the URL passes the pre-network validation but the GET fails —
a network failure/timeout or a 4xx/5xx status — `fetch_data` pops the
fetch-error dialog and both the display area and the contact store are
unchanged from their pre-call state. -/
theorem fetch_data_error_aborts (eaw : Char → EAWClass) (url : List Char)
    (outcome : HttpOutcome) (st : AppState)
    (hurl : url ≠ [])
    (hhttp : containsSub httpTok url = true)
    (hsep : containsSub sepTok url = true)
    (hfail : outcome = HttpOutcome.netFailure ∨
      ∃ status body, outcome = HttpOutcome.response status body ∧
        400 ≤ status ∧ status < 600) :
    fetch_data eaw url outcome st = (st, some Dialog.errFetch) ∧
    (fetch_data eaw url outcome st).1.display = st.display ∧
    (fetch_data eaw url outcome st).1.store = st.store := by
  have herr : ∃ e, scrape_contacts outcome = Except.error e := by
    rcases hfail with rfl | ⟨status, body, rfl, hs⟩
    · exact ⟨FetchError.netError, rfl⟩
    · exact ⟨FetchError.httpError status, by simp [scrape_contacts, hs]⟩
  obtain ⟨e, he⟩ := herr
  have hmain : fetch_data eaw url outcome st = (st, some Dialog.errFetch) := by
    unfold fetch_data
    rw [if_neg hurl, if_neg (by simp [hhttp, hsep]), he]
  exact ⟨hmain, by rw [hmain], by rw [hmain]⟩

/-- Witness for C4: a 404 response on a validated URL leaves the empty
starting state untouched and raises the fetch-error dialog. -/
theorem fetch_data_error_aborts_witness :
    fetch_data eawNarrow ("https://example.com/x".toList)
      (HttpOutcome.response 404 []) st0 = (st0, some Dialog.errFetch) ∧
    (fetch_data eawNarrow ("https://example.com/x".toList)
      (HttpOutcome.response 404 []) st0).1.display = st0.display ∧
    (fetch_data eawNarrow ("https://example.com/x".toList)
      (HttpOutcome.response 404 []) st0).1.store = st0.store :=
  fetch_data_error_aborts eawNarrow ("https://example.com/x".toList)
    (HttpOutcome.response 404 []) st0 (by decide) (by decide) (by decide)
    (Or.inr ⟨404, [], rfl, by omega, by omega⟩)

/-- C5: `fetch_data` rejects with a pre-network validation dialog exactly
when the URL is empty, lacks the substring http, or lacks the substring ://;
a rejected call leaves the state unchanged and its result does not depend on
the network outcome; consequently httpx:// passes validation while ftp://foo
and the empty URL are rejected. -/
theorem fetch_data_validation (eaw : Char → EAWClass) (url : List Char)
    (outcome : HttpOutcome) (st : AppState) :
    (validationDialog (fetch_data eaw url outcome st).2 = true ↔
      (url = [] ∨ containsSub httpTok url = false ∨
        containsSub sepTok url = false)) ∧
    (validationDialog (fetch_data eaw url outcome st).2 = true →
      (fetch_data eaw url outcome st).1 = st ∧
      ∀ outcome2, fetch_data eaw url outcome2 st = fetch_data eaw url outcome st) ∧
    validationDialog (fetch_data eaw ("httpx://".toList) outcome st).2 = false ∧
    fetch_data eaw ("ftp://foo".toList) outcome st = (st, some Dialog.errFormat) ∧
    fetch_data eaw ([] : List Char) outcome st = (st, some Dialog.warnEmpty) := by
  have hempty : ∀ (o : HttpOutcome), fetch_data eaw [] o st = (st, some Dialog.warnEmpty) := by
    intro o
    unfold fetch_data
    rw [if_pos rfl]
  have hreject : ∀ (u : List Char) (o : HttpOutcome), u ≠ [] →
      (containsSub httpTok u = false ∨ containsSub sepTok u = false) →
      fetch_data eaw u o st = (st, some Dialog.errFormat) := by
    intro u o h1 h2
    have hcond : (!containsSub httpTok u || !containsSub sepTok u) = true := by
      rcases h2 with h | h <;> simp [h]
    unfold fetch_data
    rw [if_neg h1, if_pos hcond]
  have haccept : ∀ (u : List Char) (o : HttpOutcome), u ≠ [] →
      containsSub httpTok u = true → containsSub sepTok u = true →
      validationDialog (fetch_data eaw u o st).2 = false := by
    intro u o h1 h2 h3
    unfold fetch_data
    rw [if_neg h1, if_neg (by simp [h2, h3])]
    cases hsc : scrape_contacts o with
    | error e => rfl
    | ok body => rfl
  refine ⟨⟨?_, ?_⟩, ?_, ?_, ?_, ?_⟩
  · intro hv
    by_contra hno
    push_neg at hno
    obtain ⟨h1, h2, h3⟩ := hno
    have hb2 : containsSub httpTok url = true := by
      cases hb : containsSub httpTok url with
      | false => exact absurd hb h2
      | true => rfl
    have hb3 : containsSub sepTok url = true := by
      cases hb : containsSub sepTok url with
      | false => exact absurd hb h3
      | true => rfl
    have := haccept url outcome h1 hb2 hb3
    rw [this] at hv
    exact absurd hv (by decide)
  · intro hor
    by_cases h1 : url = []
    · subst h1
      rw [hempty outcome]
      rfl
    · have hdis : containsSub httpTok url = false ∨ containsSub sepTok url = false := by
        rcases hor with hc | hc | hc
        · exact absurd hc h1
        · exact Or.inl hc
        · exact Or.inr hc
      rw [hreject url outcome h1 hdis]
      rfl
  · intro hv
    by_cases h1 : url = []
    · subst h1
      refine ⟨by rw [hempty outcome], fun o2 => by rw [hempty o2, hempty outcome]⟩
    · have hdis : containsSub httpTok url = false ∨ containsSub sepTok url = false := by
        cases hb : containsSub httpTok url with
        | false => exact Or.inl rfl
        | true =>
          cases hb2 : containsSub sepTok url with
          | false => exact Or.inr rfl
          | true =>
            have := haccept url outcome h1 hb hb2
            rw [this] at hv
            exact absurd hv (by decide)
      refine ⟨by rw [hreject url outcome h1 hdis], fun o2 => ?_⟩
      rw [hreject url o2 h1 hdis, hreject url outcome h1 hdis]
  · exact haccept ("httpx://".toList) outcome (by decide) (by decide) (by decide)
  · exact hreject ("ftp://foo".toList) outcome (by decide) (Or.inl (by decide))
  · exact hempty outcome

/-- Witness for C5: the scheme-less URL is rejected with its state unchanged,
httpx:// passes validation, and the empty URL pops the warning dialog. -/
theorem fetch_data_validation_witness :
    validationDialog
      (fetch_data eawNarrow ("ftp://foo".toList) HttpOutcome.netFailure st0).2 = true ∧
    (fetch_data eawNarrow ("ftp://foo".toList) HttpOutcome.netFailure st0).1 = st0 ∧
    validationDialog
      (fetch_data eawNarrow ("httpx://".toList) HttpOutcome.netFailure st0).2 = false ∧
    fetch_data eawNarrow ([] : List Char) HttpOutcome.netFailure st0 =
      (st0, some Dialog.warnEmpty) := by
  have h := fetch_data_validation eawNarrow ("ftp://foo".toList)
    HttpOutcome.netFailure st0
  have hv : validationDialog
      (fetch_data eawNarrow ("ftp://foo".toList) HttpOutcome.netFailure st0).2 = true :=
    h.1.mpr (Or.inr (Or.inl (by decide)))
  exact ⟨hv, (h.2.1 hv).1, h.2.2.1, h.2.2.2.2⟩
